import Mathlib

/-!
A shallow embedding, in Lean 4, of the execution-and-caching pipeline of the
repository (lib/Machine.js and lib/Machine.prototype.exec.js), together with
proofs of the specified properties.

The JavaScript code is continuation-passing and asynchronous; the embedding
linearises one run into an explicit trace of observable events (store
operations, warnings, the invocation of the unit's fn, exit traversals),
with the results of the asynchronous collaborators (the hash deriver and the
cache store) supplied as explicit parameters.  Machine-level JavaScript
values are modelled by the inductive type Value; integers stand in for
JavaScript numbers and timestamps.
-/

namespace Machine

mutual

/-- A model of the JavaScript values the pipeline manipulates.  Functions are
opaque tokens: only their presence matters to the code under study (the
lodash isFunction checks); their behaviour is supplied separately.  Object
fields are an ordered association list (JavaScript object key order). -/
inductive Value where
  | undefined : Value
  | vnull : Value
  | vbool : Bool → Value
  | vnum : Int → Value
  | vstr : String → Value
  | vobj : Fields → Value
  | vfun : Nat → Value
deriving DecidableEq, Repr

/-- The ordered field list of an object value. -/
inductive Fields where
  | nil : Fields
  | cons : String → Value → Fields → Fields
deriving DecidableEq, Repr

end

/-- Look a key up among an object's fields (first occurrence). -/
def Fields.get : Fields → String → Option Value
  | .nil, _ => none
  | .cons k v rest, key => if k = key then some v else rest.get key

/-- Assign a key: update an existing key in place, append a new one
(JavaScript object key order). -/
def Fields.set : Fields → String → Value → Fields
  | .nil, key, v => .cons key v .nil
  | .cons k w rest, key, v =>
    if k = key then .cons k v rest else .cons k w (rest.set key v)

/-- Remove a key. -/
def Fields.del : Fields → String → Fields
  | .nil, _ => .nil
  | .cons k w rest, key =>
    if k = key then rest.del key else .cons k w (rest.del key)

/-- Assign every field of the second list onto the first, in order. -/
def Fields.extendWith : Fields → Fields → Fields
  | base, .nil => base
  | base, .cons k v rest => (base.set k v).extendWith rest

/-- Fill in exactly the keys of the second list that are absent or undefined
on the first (lodash defaults). -/
def Fields.withDefaults : Fields → Fields → Fields
  | base, .nil => base
  | base, .cons k v rest =>
    (if base.get k = none ∨ base.get k = some Value.undefined
     then base.set k v else base).withDefaults rest

/-- JavaScript truthiness: undefined, null, false, 0 and the empty string are
falsy; objects and functions are truthy. -/
def truthy : Value → Bool
  | .undefined => false
  | .vnull => false
  | .vbool b => b
  | .vnum n => n != 0
  | .vstr s => s ≠ ""
  | .vobj _ => true
  | .vfun _ => true

/-- lodash isObject: objects and functions count, null does not. -/
def isObject : Value → Bool
  | .vobj _ => true
  | .vfun _ => true
  | _ => false

/-- lodash isFunction. -/
def isFunction : Value → Bool
  | .vfun _ => true
  | _ => false

/-- Property access v[k]: undefined on non-objects and absent keys. -/
def getField : Value → String → Value
  | .vobj fs, k =>
    match fs.get k with
    | some v => v
    | none => .undefined
  | _, _ => .undefined

/-- The own enumerable fields a lodash assign/extend copies from a source
value: an object's fields; a string's indexed characters; nothing from other
primitives. -/
def srcFields : Value → Fields
  | .vobj fs => fs
  | .vstr s =>
    (s.data.enum.map (fun p => (toString p.1, Value.vstr (String.mk [p.2])))).foldr
      (fun p acc => Fields.cons p.1 p.2 acc) Fields.nil
  | _ => .nil

/-- lodash extend(dst, src) (assignment of src's own enumerable fields onto
dst).  A non-object destination is coerced to an object, as Object(dst)
would be; the primitive wrapper's own fields are approximated as empty. -/
def jsExtend (dst src : Value) : Value :=
  let base := match dst with | .vobj fs => fs | _ => Fields.nil
  .vobj (base.extendWith (srcFields src))

/-- lodash defaults(dst, ds): fill in exactly the keys of ds whose current
value on dst is undefined. -/
def jsDefaults (dst : Value) (ds : Fields) : Value :=
  match dst with
  | .vobj fs => .vobj (fs.withDefaults ds)
  | w => w

/-- delete v[k]. -/
def deleteField : Value → String → Value
  | .vobj fs, k => .vobj (fs.del k)
  | w, _ => w

/-- JavaScript ToNumber, restricted to the integral values the pipeline
uses; none stands for NaN. -/
def jsToNum : Value → Option Int
  | .vnum n => some n
  | .vbool b => some (if b then 1 else 0)
  | .vnull => some 0
  | .vstr s => if s = "" then some 0 else s.toInt?
  | .undefined => none
  | .vobj _ => none
  | .vfun _ => none

/-- JavaScript n > b for a known number n and an arbitrary value b (false
when b coerces to NaN, as for the undefined result of a failed count). -/
def jsGtNum (n : Int) (b : Value) : Bool :=
  match jsToNum b with
  | some bv => n > bv
  | none => false

/-- A persisted cache record (hash, data, createdAt).  The hash field is a
Value because the code can issue criteria with an undefined hash. -/
structure CacheEntry where
  hash : Value
  data : Value
  createdAt : Int
deriving DecidableEq, Repr

/-- The criteria built by buildFindCriteria: equality on hash, strictly
greater-than on createdAt versus the expiration date (none models an invalid
date, whose comparisons are all false), descending sort, and a limit. -/
structure FindCriteria where
  hash : Value
  createdAtGreaterThan : Option Int
  sort : String
  limit : Nat
deriving DecidableEq, Repr

/-- lib/Machine.prototype.exec.js, buildFindCriteria: entries with this hash
and createdAt strictly after the expiration date, newest first, limit 1. -/
def buildFindCriteria (hash : Value) (expirationDate : Option Int) : FindCriteria :=
  { hash := hash
    createdAtGreaterThan := expirationDate
    sort := "createdAt DESC"
    limit := 1 }

/-- The criteria of the garbage collector's count query: equality on hash and
createdAt less-than-or-equal the expiration date. -/
structure CountCriteria where
  hash : Value
  createdAtLe : Option Int
deriving DecidableEq, Repr

/-- The criteria of the garbage collector's destroy query: the count query's
filter plus a descending sort and a skip offset. -/
structure DestroyCriteria where
  hash : Value
  createdAtLe : Option Int
  sort : String
  skip : Value
deriving DecidableEq, Repr

/-- Does an entry match find criteria (fresh: createdAt strictly greater than
the cutoff, and the right hash)? -/
def matchesFind (c : FindCriteria) (e : CacheEntry) : Bool :=
  e.hash == c.hash &&
    (match c.createdAtGreaterThan with
     | some t => e.createdAt > t
     | none => false)

/-- Does an entry match the garbage collector's staleness filter (createdAt
less than or equal to the cutoff, and the right hash)? -/
def matchesStale (hash : Value) (cutoff : Option Int) (e : CacheEntry) : Bool :=
  e.hash == hash &&
    (match cutoff with
     | some t => e.createdAt ≤ t
     | none => false)

/-- createdAt-descending order on entries (the meaning of the sort clause
the code sends to the store). -/
def geCA (a b : CacheEntry) : Prop := b.createdAt ≤ a.createdAt

instance : DecidableRel geCA := fun a b => inferInstanceAs (Decidable (b.createdAt ≤ a.createdAt))

instance : IsTotal CacheEntry geCA := ⟨fun a b => le_total b.createdAt a.createdAt⟩

instance : IsTrans CacheEntry geCA := ⟨fun _ _ _ h1 h2 => le_trans h2 h1⟩

/-- Sort entries newest first. -/
def sortDesc (l : List CacheEntry) : List CacheEntry := List.insertionSort geCA l

/-- A conforming store's answer to a find query: the matching entries,
newest first, truncated to the limit. -/
def runFind (store : List CacheEntry) (c : FindCriteria) : List CacheEntry :=
  (sortDesc (store.filter (matchesFind c))).take c.limit

/-- A conforming store's answer to the garbage collector's count query. -/
def runCount (store : List CacheEntry) (c : CountCriteria) : Int :=
  ((store.filter (matchesStale c.hash c.createdAtLe)).length : Int)

/-- The skip offset a store applies: a non-negative integer. -/
def skipNat (v : Value) : Nat :=
  match jsToNum v with
  | some n => n.toNat
  | none => 0

/-- The entries a conforming store deletes for the garbage collector's
destroy query: the matching (stale) entries, newest first, with the first
skip of them retained. -/
def runDestroy (store : List CacheEntry) (c : DestroyCriteria) : List CacheEntry :=
  (sortDesc (store.filter (matchesStale c.hash c.createdAtLe))).drop (skipNat c.skip)

/-- The store's contents after a conforming destroy. -/
def remainingAfterDestroy (store : List CacheEntry) (c : DestroyCriteria) :
    List CacheEntry :=
  store.filter (fun e => !(decide (e ∈ runDestroy store c)))

/-- The stale entries of a store for a hash: those the garbage collector's
criteria select (right hash, createdAt at or before the cutoff). -/
def staleOf (store : List CacheEntry) (h : String) (cutoff : Int) : List CacheEntry :=
  store.filter (matchesStale (.vstr h) (some cutoff))

/-- The destroy criteria the garbage collector issues for a derived hash. -/
def gcDestroyCriteria (h : String) (cutoff : Int) (buf : Value) : DestroyCriteria :=
  { hash := .vstr h, createdAtLe := some cutoff, sort := "createdAt DESC", skip := buf }

/-- The observable events of one run: store operations, warnings, invocation
of the unit's fn (with the first and third of its arguments; the second, the
switchback over the intercepted exits, is modelled by traverseExit), and
traversals of the machine's configured exit continuations. -/
inductive Ev where
  | findOp : FindCriteria → Ev
  | createOp : Value → Value → Ev
  | countOp : CountCriteria → Ev
  | destroyOp : DestroyCriteria → Ev
  | warn : Value → Ev
  | fnCall : Value → Value → Ev
  | exitCalled : String → Value → Ev
deriving DecidableEq, Repr

/-- The behaviour of the external cache store for one run: the outcome of
each of the four operations the pipeline can issue. -/
structure StoreBehavior where
  findR : FindCriteria → Except Value (List CacheEntry)
  createR : Value → Value → Except Value Unit
  countR : CountCriteria → Except Value Int
  destroyR : DestroyCriteria → Except Value Unit

/-- A store that conforms to the contract of section 6 of the design:
queries are answered from a list of entries and never error. -/
def conformingStore (store : List CacheEntry) : StoreBehavior where
  findR := fun c => .ok (runFind store c)
  createR := fun _ _ => .ok ()
  countR := fun c => .ok (runCount store c)
  destroyR := fun _ => .ok ()

/-- The per-run state of a machine instance that the pipeline reads and
writes: the configured inputs, the names of the configured exits, the raw
cache settings, the (never initialised by the constructor) configuredContexts
property, and the resolved dependencies. -/
structure MachineState where
  configuredInputs : Value
  configuredExits : List String
  cacheSettings : Value
  configuredContexts : Value
  dependencies : Value
deriving DecidableEq, Repr

/-- lib/Machine.js, the constructor (lines 71-81): _configuredInputs and
_configuredExits start empty, _dependencies holds the resolved modules, and
no _configuredContexts property is ever assigned (reading it gives
undefined). -/
def initMachine (dependencies : Value) (cacheSettings : Value) : MachineState where
  configuredInputs := .vobj .nil
  configuredExits := []
  cacheSettings := cacheSettings
  configuredContexts := .undefined
  dependencies := dependencies

/-- lib/Machine.js, setInputs: extend the configured inputs. -/
def setInputs (m : MachineState) (inputs : Value) : MachineState :=
  { m with configuredInputs := jsExtend m.configuredInputs inputs }

/-- lib/Machine.js, setExits, restricted to the exit names the model
tracks. -/
def setExits (m : MachineState) (exits : List String) : MachineState :=
  { m with configuredExits := m.configuredExits ++ exits.filter (fun n => n ∉ m.configuredExits) }

/-- lib/Machine.prototype.exec.js lines 45-48: when the reserved _cache input
is truthy, extend the cache settings with it and delete it from the
configured inputs. -/
def mergeCacheInput (m : MachineState) : MachineState :=
  let v := getField m.configuredInputs "_cache"
  if truthy v then
    { m with
      cacheSettings := jsExtend m.cacheSettings v
      configuredInputs := deleteField m.configuredInputs "_cache" }
  else m

/-- lib/Machine.prototype.exec.js lines 53-59: the cache settings are usable
only when they are an object whose model field is an object with find and
create functions. -/
def validCacheVal (v : Value) : Bool :=
  isObject v && isObject (getField v "model") &&
    isFunction (getField (getField v "model") "find") &&
    isFunction (getField (getField v "model") "create")

/-- The normalised cache configuration of one run. -/
structure NormCache where
  settings : Value
  maxOldEntriesBuffer : Value
  exit : Value
  expirationDate : Option Int
deriving DecidableEq, Repr

/-- The defaults of lines 65-87: ttl three hours, no buffer of old entries,
cache the success exit. -/
def cacheDefaults : Fields :=
  .cons "ttl" (.vnum 10800000)
    (.cons "maxOldEntriesBuffer" (.vnum 0)
      (.cons "exit" (.vstr "success") .nil))

/-- lib/Machine.prototype.exec.js lines 52-93: null out invalid settings;
otherwise apply defaults and stamp the expiration date (now minus ttl,
invalid - none - when the ttl is not a number) onto the settings object.
Returns the normalised configuration (none when caching is disabled) and the
machine's settings value after the in-place mutation. -/
def normalizeCache (settings : Value) (now : Int) : Option NormCache × Value :=
  if validCacheVal settings then
    let ns := jsDefaults settings cacheDefaults
    let cutoff := (jsToNum (getField ns "ttl")).map (fun t => now - t)
    let dateVal : Value := match cutoff with
      | some n => .vnum n
      | none => .vobj .nil
    let ns2 : Value := match ns with
      | .vobj fs => .vobj (fs.set "expirationDate" dateVal)
      | w => w
    (some { settings := ns2
            maxOldEntriesBuffer := getField ns "maxOldEntriesBuffer"
            exit := getField ns "exit"
            expirationDate := cutoff }, ns2)
  else
    (none, settings)

/-- The hash criterion value of a garbage-collection query: the hash string
when derivation succeeded, undefined when it failed. -/
def hashCrit : Option String → Value
  | some h => .vstr h
  | none => .undefined

/-- lib/Machine.prototype.exec.js lines 175-216, the garbage collector:
count the stale entries for this run's hash (undefined when hash derivation
failed); on a count error warn and stop (the undefined count compares false
against the buffer); when the count exceeds maxOldEntriesBuffer, destroy the
stale entries newest-first skipping the first maxOldEntriesBuffer of them,
warning on a destroy error. -/
def gcEvents (c : NormCache) (hash : Option String) (sb : StoreBehavior) : List Ev :=
  let hv : Value := hashCrit hash
  let cnt : CountCriteria := { hash := hv, createdAtLe := c.expirationDate }
  Ev.countOp cnt ::
    (match sb.countR cnt with
     | .error e => [Ev.warn e]
     | .ok n =>
       if jsGtNum n c.maxOldEntriesBuffer then
         let dc : DestroyCriteria :=
           { hash := hv
             createdAtLe := c.expirationDate
             sort := "createdAt DESC"
             skip := c.maxOldEntriesBuffer }
         Ev.destroyOp dc ::
           (match sb.destroyR dc with
            | .error e => [Ev.warn e]
            | .ok _ => [])
       else [])

/-- lib/Machine.prototype.exec.js lines 221-252 and 255: the unit traverses
exit name with value d through the switchback over the intercepted exits.
An exit is passed through untouched unless the cache is enabled, the hash is
truthy, and the exit is the configured cacheable exit; the cacheable exit
first creates a cache entry, warns if that fails, and then forwards d to the
original continuation either way. -/
def traverseExit (nc : Option NormCache) (hash : Option String) (exits : List String)
    (sb : StoreBehavior) (name : String) (d : Value) : List Ev :=
  if name ∈ exits then
    match nc, hash with
    | some c, some h =>
      if h ≠ "" && c.exit == Value.vstr name then
        Ev.createOp (.vstr h) d ::
          (match sb.createR (.vstr h) d with
           | .error e => [Ev.warn e]
           | .ok _ => []) ++ [Ev.exitCalled name d]
      else [Ev.exitCalled name d]
    | _, _ => [Ev.exitCalled name d]
  else []

/-- lib/Machine.prototype.exec.js lines 156-256, the fallback continuation
_cacheNotAnOption_justRunMachine: warn about a lookup error if there was
one; launch the garbage collector whenever the cache settings were valid
(its completion is not awaited); invoke the unit's fn with the configured
inputs, the switchback over the intercepted exits, and the machine's
_configuredContexts property; then the unit's own traversal, if any. -/
def fallbackEvents (nc : Option NormCache) (hash : Option String) (err : Option Value)
    (m2 : MachineState) (sb : StoreBehavior) (fnAct : Option (String × Value)) : List Ev :=
  (match err with
   | some e => [Ev.warn e]
   | none => []) ++
  (match nc with
   | some c => gcEvents c hash sb
   | none => []) ++
  [Ev.fnCall m2.configuredInputs m2.configuredContexts] ++
  (match fnAct with
   | some a => traverseExit nc hash m2.configuredExits sb a.1 a.2
   | none => [])

/-- lib/Machine.prototype.exec.js lines 117-152 joined with the fallback:
the events of one run, given the normalised cache configuration, the hash
deriver's outcome, and the store's behaviour.  Disabled caching and a hash
error fall back immediately; otherwise a find is issued; a find error falls
back with a warning; a nonempty result whose first entry has defined data is
a hit, forwarded through the switchback over the configured exits (the
success continuation); anything else is a miss. -/
def execEvents (nc : Option NormCache) (m2 : MachineState) (hres : Except Value String)
    (sb : StoreBehavior) (fnAct : Option (String × Value)) : List Ev :=
  match nc with
  | none => fallbackEvents none none none m2 sb fnAct
  | some c =>
    match hres with
    | .error e => fallbackEvents (some c) none (some e) m2 sb fnAct
    | .ok h =>
      let fc := buildFindCriteria (.vstr h) c.expirationDate
      Ev.findOp fc ::
        (match sb.findR fc with
         | .error e => fallbackEvents (some c) (some h) (some e) m2 sb fnAct
         | .ok [] => fallbackEvents (some c) (some h) none m2 sb fnAct
         | .ok (e0 :: _) =>
           if e0.data ≠ Value.undefined then
             [Ev.exitCalled "success" e0.data]
           else
             fallbackEvents (some c) (some h) none m2 sb fnAct)

/-- lib/Machine.prototype.exec.js, Machineºprototypeºexec: one full run.
Merge the reserved _cache input, normalise the cache settings (mutating the
machine's settings in place), and produce the run's event trace together
with the machine state after the run. -/
def exec (m : MachineState) (now : Int) (hres : Except Value String)
    (sb : StoreBehavior) (fnAct : Option (String × Value)) : List Ev × MachineState :=
  let m1 := mergeCacheInput m
  let nres := normalizeCache m1.cacheSettings now
  let m2 := { m1 with cacheSettings := nres.2 }
  (execEvents nres.1 m2 hres sb fnAct, m2)

/-- lib/Machine.js lines 192-205, the plain (non-caching) exec defined on
the prototype in Machine.js itself: invoke fn with the configured inputs,
the switchback over the configured exits, and the resolved dependencies. -/
def execSimple (m : MachineState) (fnAct : Option (String × Value)) : List Ev :=
  Ev.fnCall m.configuredInputs m.dependencies ::
    (match fnAct with
     | some a => if a.1 ∈ m.configuredExits then [Ev.exitCalled a.1 a.2] else []
     | none => [])

/-- Is this event an invocation of the unit's fn? -/
def Ev.isFnCall : Ev → Bool
  | .fnCall _ _ => true
  | _ => false

/-- Is this event a create operation against the store? -/
def Ev.isCreateOp : Ev → Bool
  | .createOp _ _ => true
  | _ => false

/-- Is this event any operation against the store (find, create, count or
destroy)? -/
def Ev.isStoreOp : Ev → Bool
  | .findOp _ => true
  | .createOp _ _ => true
  | .countOp _ => true
  | .destroyOp _ => true
  | _ => false

/-- Did the run's lookup result in a delivered cache hit?  True exactly when
caching was enabled, the hash was derived, and the find answer is a nonempty
list whose first entry has defined data. -/
def tookHit (nc : Option NormCache) (hres : Except Value String) (sb : StoreBehavior) : Bool :=
  match nc with
  | none => false
  | some c =>
    match hres with
    | .error _ => false
    | .ok h =>
      match sb.findR (buildFindCriteria (.vstr h) c.expirationDate) with
      | .ok (e0 :: _) => e0.data != Value.undefined
      | _ => false

/-- Was a find answer treated as a miss (an error, an empty list, or a first
entry with undefined data)? -/
def fellBackFind : Except Value (List CacheEntry) → Bool
  | .error _ => true
  | .ok [] => true
  | .ok (e0 :: _) => e0.data == Value.undefined

/-- A valid cache-settings value: a model object exposing find and create. -/
def settingsOK : Value :=
  .vobj (.cons "model"
    (.vobj (.cons "find" (.vfun 0) (.cons "create" (.vfun 1) .nil))) .nil)

/-- A concrete machine with valid cache settings, one input, and the two
standard exits. -/
def mOK : MachineState where
  configuredInputs := .vobj (.cons "a" (.vnum 1) .nil)
  configuredExits := ["success", "error"]
  cacheSettings := settingsOK
  configuredContexts := .undefined
  dependencies := .vobj .nil

/-- A concrete fresh cache entry (createdAt 150, after the cutoff 100 that a
run at time 10800100 with the default ttl computes). -/
def entryFresh : CacheEntry where
  hash := .vstr "h1"
  data := .vstr "cached"
  createdAt := 150

/-- A concrete entry sitting exactly on the freshness cutoff. -/
def entryAtCutoff : CacheEntry where
  hash := .vstr "h1"
  data := .vstr "boundary"
  createdAt := 100

/-- Valid cache settings with a caller-chosen retention buffer of one. -/
def settingsBuf : Value :=
  .vobj (.cons "model"
    (.vobj (.cons "find" (.vfun 0) (.cons "create" (.vfun 1) .nil)))
    (.cons "maxOldEntriesBuffer" (.vnum 1) .nil))

/-- mOK with a retention buffer of one. -/
def mBuf : MachineState := { mOK with cacheSettings := settingsBuf }

/-- The normalised cache configuration that mBuf yields at time 10800100. -/
def normBuf : NormCache :=
  ((normalizeCache (mergeCacheInput mBuf).cacheSettings 10800100).1).getD
    { settings := .undefined, maxOldEntriesBuffer := .undefined, exit := .undefined, expirationDate := none }

/-- Three stale entries for hash h1 (createdAt 10, 20, 30, all at or before
the cutoff 100). -/
def staleA : CacheEntry where
  hash := .vstr "h1"
  data := .vstr "a"
  createdAt := 10

def staleB : CacheEntry where
  hash := .vstr "h1"
  data := .vstr "b"
  createdAt := 20

def staleC : CacheEntry where
  hash := .vstr "h1"
  data := .vstr "c"
  createdAt := 30

/-- A machine that supplies the reserved _cache input with a falsy value. -/
def mFalsyCache : MachineState where
  configuredInputs := .vobj (.cons "_cache" (.vbool false) (.cons "x" (.vnum 7) .nil))
  configuredExits := ["success"]
  cacheSettings := .undefined
  configuredContexts := .undefined
  dependencies := .vobj .nil

/-- The normalised cache configuration that mOK yields at time 10800100
(freshness cutoff 100 with the default three-hour ttl). -/
def normOK : NormCache :=
  ((normalizeCache (mergeCacheInput mOK).cacheSettings 10800100).1).getD
    { settings := .undefined, maxOldEntriesBuffer := .undefined, exit := .undefined, expirationDate := none }

/-- A store behaviour whose find always errors. -/
def alwaysFindError (e : Value) : StoreBehavior where
  findR := fun _ => .error e
  createR := fun _ _ => .ok ()
  countR := fun c => .ok (runCount [] c)
  destroyR := fun _ => .ok ()

/-- An empty conforming store whose garbage-collection operations (count and
destroy) always error; find and create agree with conformingStore. -/
def sbGcErr : StoreBehavior where
  findR := (conformingStore []).findR
  createR := (conformingStore []).createR
  countR := fun _ => .error (.vstr "gcboom")
  destroyR := fun _ => .error (.vstr "gcboom")

/-- A machine that supplies the reserved _cache input with a truthy
(object) value. -/
def mTruthyCache : MachineState where
  configuredInputs :=
    .vobj (.cons "_cache" (.vobj (.cons "ttl" (.vnum 5) .nil)) (.cons "x" (.vnum 7) .nil))
  configuredExits := ["success"]
  cacheSettings := .undefined
  configuredContexts := .undefined
  dependencies := .vobj .nil

/-- Valid cache settings whose cacheable exit is the custom exit foo. -/
def settingsFoo : Value :=
  .vobj (.cons "model"
    (.vobj (.cons "find" (.vfun 0) (.cons "create" (.vfun 1) .nil)))
    (.cons "exit" (.vstr "foo") .nil))

/-- mOK with a custom cacheable exit foo among its configured exits. -/
def mFoo : MachineState :=
  { mOK with configuredExits := ["success", "error", "foo"], cacheSettings := settingsFoo }

/-- The normalised cache configuration that mFoo yields at time 10800100. -/
def normFoo : NormCache :=
  ((normalizeCache (mergeCacheInput mFoo).cacheSettings 10800100).1).getD
    { settings := .undefined, maxOldEntriesBuffer := .undefined, exit := .undefined, expirationDate := none }

/-- A machine built through the embedded Machine.js constructor with one
resolved dependency, one input and the success exit configured. -/
def mDeps : MachineState :=
  setExits
    (setInputs (initMachine (.vobj (.cons "dep" (.vfun 5) .nil)) settingsOK)
      (.vobj (.cons "a" (.vnum 1) .nil)))
    ["success"]

theorem Fields.get_del_self : (fs : Fields) → (k : String) → (fs.del k).get k = none
  | .nil, _ => rfl
  | .cons k' _ rest, k => by
    by_cases h : k' = k
    · simpa [Fields.del, h] using Fields.get_del_self rest k
    · simp [Fields.del, h, Fields.get, Fields.get_del_self rest k]

theorem Fields.get_del_ne : (fs : Fields) → (k k' : String) → k' ≠ k →
    (fs.del k).get k' = fs.get k'
  | .nil, _, _, _ => rfl
  | .cons k0 _ rest, k, k', h => by
    by_cases h0 : k0 = k
    · subst h0
      simp [Fields.del, Fields.get, Ne.symm h, Fields.get_del_ne rest _ _ h]
    · by_cases h1 : k0 = k'
      · simp [Fields.del, h0, Fields.get, h1, h]
      · simp [Fields.del, h0, Fields.get, h1, Fields.get_del_ne rest _ _ h]

theorem getField_deleteField_self (v : Value) (k : String) :
    getField (deleteField v k) k = Value.undefined := by
  cases v <;> simp [deleteField, getField, Fields.get_del_self]

theorem getField_deleteField_ne (v : Value) (k k' : String) (h : k' ≠ k) :
    getField (deleteField v k) k' = getField v k' := by
  cases v <;> simp [deleteField, getField, Fields.get_del_ne _ _ _ h]

theorem mergeCacheInput_idem (m : MachineState) :
    mergeCacheInput (mergeCacheInput m) = mergeCacheInput m := by
  unfold mergeCacheInput
  by_cases h : truthy (getField m.configuredInputs "_cache") = true
  · simp only [h, if_pos]
    simp [getField_deleteField_self, truthy]
  · simp only [Bool.not_eq_true] at h
    simp [h]

theorem mem_gcEvents (c : NormCache) (hash : Option String) (sb : StoreBehavior)
    (ev : Ev) (hev : ev ∈ gcEvents c hash sb) :
    Ev.isFnCall ev = false ∧ Ev.isCreateOp ev = false ∧
      (∀ n d, ev ≠ Ev.exitCalled n d) ∧ (∀ f, ev ≠ Ev.findOp f) := by
  unfold gcEvents at hev
  simp only [List.mem_cons] at hev
  rcases hev with rfl | hev
  · simp [Ev.isFnCall, Ev.isCreateOp]
  · split at hev
    · simp only [List.mem_singleton] at hev
      subst hev
      simp [Ev.isFnCall, Ev.isCreateOp]
    · split at hev
      · simp only [List.mem_cons] at hev
        rcases hev with rfl | hev
        · simp [Ev.isFnCall, Ev.isCreateOp]
        · split at hev
          · simp only [List.mem_singleton] at hev
            subst hev
            simp [Ev.isFnCall, Ev.isCreateOp]
          · simp at hev
      · simp at hev

theorem mem_traverseExit (nc : Option NormCache) (hash : Option String)
    (exits : List String) (sb : StoreBehavior) (name : String) (d : Value)
    (ev : Ev) (hev : ev ∈ traverseExit nc hash exits sb name d) :
    Ev.isFnCall ev = false ∧ (∀ cc, ev ≠ Ev.countOp cc) ∧
      (∀ dc, ev ≠ Ev.destroyOp dc) ∧ (∀ f, ev ≠ Ev.findOp f) := by
  unfold traverseExit at hev
  split at hev
  · split at hev
    · split at hev
      · rw [List.mem_append] at hev
        rcases hev with hev | hev
        · simp only [List.mem_cons] at hev
          rcases hev with rfl | hev
          · simp [Ev.isFnCall]
          · split at hev
            · simp only [List.mem_singleton] at hev
              subst hev
              simp [Ev.isFnCall]
            · simp at hev
        · simp only [List.mem_singleton] at hev
          subst hev
          simp [Ev.isFnCall]
      · simp only [List.mem_singleton] at hev
        subst hev
        simp [Ev.isFnCall]
    · simp only [List.mem_singleton] at hev
      subst hev
      simp [Ev.isFnCall]
  · simp at hev

theorem gcEvents_filter_fnCall (c : NormCache) (hash : Option String) (sb : StoreBehavior) :
    (gcEvents c hash sb).filter Ev.isFnCall = [] :=
  List.filter_eq_nil_iff.mpr fun ev hev => by
    simp [(mem_gcEvents c hash sb ev hev).1]

theorem gcEvents_filter_create (c : NormCache) (hash : Option String) (sb : StoreBehavior) :
    (gcEvents c hash sb).filter Ev.isCreateOp = [] :=
  List.filter_eq_nil_iff.mpr fun ev hev => by
    simp [(mem_gcEvents c hash sb ev hev).2.1]

theorem traverseExit_filter_fnCall (nc : Option NormCache) (hash : Option String)
    (exits : List String) (sb : StoreBehavior) (name : String) (d : Value) :
    (traverseExit nc hash exits sb name d).filter Ev.isFnCall = [] :=
  List.filter_eq_nil_iff.mpr fun ev hev => by
    simp [(mem_traverseExit nc hash exits sb name d ev hev).1]

theorem fnCall_mem_fallbackEvents (nc : Option NormCache) (hash : Option String)
    (err : Option Value) (m2 : MachineState) (sb : StoreBehavior)
    (fnAct : Option (String × Value)) :
    Ev.fnCall m2.configuredInputs m2.configuredContexts ∈
      fallbackEvents nc hash err m2 sb fnAct := by
  unfold fallbackEvents
  simp [List.mem_append]

theorem fallbackEvents_filter_fnCall (nc : Option NormCache) (hash : Option String)
    (err : Option Value) (m2 : MachineState) (sb : StoreBehavior)
    (fnAct : Option (String × Value)) :
    (fallbackEvents nc hash err m2 sb fnAct).filter Ev.isFnCall =
      [Ev.fnCall m2.configuredInputs m2.configuredContexts] := by
  cases err <;> cases nc <;> cases fnAct <;>
    simp [fallbackEvents, List.filter_append, gcEvents_filter_fnCall,
      traverseExit_filter_fnCall, Ev.isFnCall]

theorem fnCall_mem_fallbackEvents_iff (nc : Option NormCache) (hash : Option String)
    (err : Option Value) (m2 : MachineState) (sb : StoreBehavior)
    (fnAct : Option (String × Value)) (i x : Value) :
    Ev.fnCall i x ∈ fallbackEvents nc hash err m2 sb fnAct ↔
      i = m2.configuredInputs ∧ x = m2.configuredContexts := by
  constructor
  · intro h
    have hm : Ev.fnCall i x ∈ (fallbackEvents nc hash err m2 sb fnAct).filter Ev.isFnCall :=
      List.mem_filter.mpr ⟨h, by simp [Ev.isFnCall]⟩
    rw [fallbackEvents_filter_fnCall] at hm
    simp only [List.mem_singleton, Ev.fnCall.injEq] at hm
    exact hm
  · rintro ⟨rfl, rfl⟩
    exact fnCall_mem_fallbackEvents nc hash err m2 sb fnAct

theorem countOp_mem_fallbackEvents (c : NormCache) (hash : Option String)
    (err : Option Value) (m2 : MachineState) (sb : StoreBehavior)
    (fnAct : Option (String × Value)) :
    Ev.countOp { hash := hashCrit hash, createdAtLe := c.expirationDate } ∈
      fallbackEvents (some c) hash err m2 sb fnAct := by
  unfold fallbackEvents gcEvents
  simp [List.mem_append]

theorem mem_traverseExit_none (hash : Option String) (exits : List String)
    (sb : StoreBehavior) (name : String) (d : Value) (ev : Ev)
    (hev : ev ∈ traverseExit none hash exits sb name d) : ev = Ev.exitCalled name d := by
  cases hash
  all_goals
    unfold traverseExit at hev
    split at hev
    case isTrue => simpa using hev
    case isFalse => simp at hev

theorem mem_fallbackEvents_none (hash : Option String) (err : Option Value)
    (m2 : MachineState) (sb : StoreBehavior) (fnAct : Option (String × Value)) (ev : Ev)
    (hev : ev ∈ fallbackEvents none hash err m2 sb fnAct) :
    (∃ e, ev = Ev.warn e) ∨ ev = Ev.fnCall m2.configuredInputs m2.configuredContexts ∨
      (∃ n d, ev = Ev.exitCalled n d) := by
  cases err <;> cases fnAct <;> simp only [fallbackEvents, List.mem_append,
    List.mem_cons, List.mem_singleton, List.not_mem_nil, or_false, false_or,
    List.nil_append, List.append_nil] at hev
  case none.none =>
    exact Or.inr (Or.inl hev)
  case none.some a =>
    rcases hev with rfl | hev
    · exact Or.inr (Or.inl rfl)
    · exact Or.inr (Or.inr ⟨_, _, mem_traverseExit_none _ _ _ _ _ _ hev⟩)
  case some.none e =>
    rcases hev with rfl | rfl
    · exact Or.inl ⟨_, rfl⟩
    · exact Or.inr (Or.inl rfl)
  case some.some e a =>
    rcases hev with (rfl | rfl) | hev
    · exact Or.inl ⟨_, rfl⟩
    · exact Or.inr (Or.inl rfl)
    · exact Or.inr (Or.inr ⟨_, _, mem_traverseExit_none _ _ _ _ _ _ hev⟩)

theorem fallbackEvents_none_no_storeOp (hash : Option String) (err : Option Value)
    (m2 : MachineState) (sb : StoreBehavior) (fnAct : Option (String × Value)) (ev : Ev)
    (hev : ev ∈ fallbackEvents none hash err m2 sb fnAct) : Ev.isStoreOp ev = false := by
  rcases mem_fallbackEvents_none hash err m2 sb fnAct ev hev with ⟨e, rfl⟩ | rfl | ⟨n, d, rfl⟩ <;>
    simp [Ev.isStoreOp]

theorem sortDesc_perm (l : List CacheEntry) : (sortDesc l).Perm l :=
  List.perm_insertionSort geCA l

theorem sortDesc_sorted (l : List CacheEntry) : List.Sorted geCA (sortDesc l) :=
  List.sorted_insertionSort geCA l

theorem mem_sortDesc {l : List CacheEntry} {e : CacheEntry} : e ∈ sortDesc l ↔ e ∈ l :=
  (sortDesc_perm l).mem_iff

theorem sortDesc_head_max {l : List CacheEntry} {e0 : CacheEntry} {t : List CacheEntry}
    (h : sortDesc l = e0 :: t) : ∀ e ∈ l, e.createdAt ≤ e0.createdAt := by
  intro e he
  have hmem : e ∈ sortDesc l := mem_sortDesc.mpr he
  rw [h, List.mem_cons] at hmem
  rcases hmem with rfl | hmem
  · exact le_refl _
  · have hs := sortDesc_sorted l
    rw [h] at hs
    exact List.rel_of_sorted_cons hs e hmem

theorem take_one_cons {α : Type} {xs : List α} {e0 : α} {rest : List α}
    (h : xs.take 1 = e0 :: rest) : ∃ t, xs = e0 :: t ∧ rest = [] := by
  cases xs with
  | nil => simp at h
  | cons a as =>
    simp [List.take] at h
    exact ⟨as, by rw [h.1], h.2⟩

theorem pairwise_take_drop {α : Type} {r : α → α → Prop} {l : List α}
    (h : l.Pairwise r) (n : Nat) : ∀ x ∈ l.take n, ∀ y ∈ l.drop n, r x y := by
  have hsplit : l.take n ++ l.drop n = l := List.take_append_drop n l
  rw [← hsplit] at h
  exact (List.pairwise_append.mp h).2.2

theorem nodup_of_pairwise_ne_createdAt {l : List CacheEntry}
    (h : l.Pairwise (fun a b => a.createdAt ≠ b.createdAt)) : l.Nodup :=
  h.imp fun hne heq => hne (by rw [heq])

theorem mem_take_iff_not_mem_drop {α : Type} [DecidableEq α] {l : List α}
    (h : l.Nodup) (n : Nat) {e : α} (he : e ∈ l) : e ∈ l.take n ↔ e ∉ l.drop n := by
  have hsplit : l.take n ++ l.drop n = l := List.take_append_drop n l
  have hd : (l.take n).Disjoint (l.drop n) :=
    List.disjoint_of_nodup_append (by rwa [hsplit])
  constructor
  · intro ht hdrop
    exact hd ht hdrop
  · intro hdrop
    rw [← hsplit, List.mem_append] at he
    exact he.resolve_right hdrop

theorem mem_runFind {store : List CacheEntry} {c : FindCriteria} {e : CacheEntry}
    (h : e ∈ runFind store c) : e ∈ store ∧ matchesFind c e = true := by
  unfold runFind at h
  have h1 : e ∈ sortDesc (store.filter (matchesFind c)) := List.take_subset _ _ h
  have h2 : e ∈ store.filter (matchesFind c) := mem_sortDesc.mp h1
  exact ⟨(List.mem_filter.mp h2).1, (List.mem_filter.mp h2).2⟩

theorem exec_events_eq (m : MachineState) (now : Int) (hres : Except Value String)
    (sb : StoreBehavior) (fnAct : Option (String × Value)) :
    (exec m now hres sb fnAct).1 =
      execEvents (normalizeCache (mergeCacheInput m).cacheSettings now).1
        { mergeCacheInput m with
          cacheSettings := (normalizeCache (mergeCacheInput m).cacheSettings now).2 }
        hres sb fnAct := rfl

theorem execEvents_hit (c : NormCache) (m2 : MachineState) (h : String)
    (sb : StoreBehavior) (fnAct : Option (String × Value)) (e0 : CacheEntry)
    (rest : List CacheEntry)
    (hfind : sb.findR (buildFindCriteria (.vstr h) c.expirationDate) = .ok (e0 :: rest))
    (hdata : e0.data ≠ Value.undefined) :
    execEvents (some c) m2 (.ok h) sb fnAct =
      [Ev.findOp (buildFindCriteria (.vstr h) c.expirationDate),
       Ev.exitCalled "success" e0.data] := by
  simp only [execEvents]
  rw [hfind]
  simp [hdata]

/-- C7: the cache lookup criteria keep only entries with createdAt strictly
greater than the expiration cutoff, sorted createdAt descending with limit
one; an entry whose createdAt equals the cutoff is not fresh and can never
be returned by the lookup (so it can never produce a hit), while any entry
with the right hash and createdAt strictly after the cutoff passes the
freshness filter. -/
theorem C7_freshness_boundary (hv : Value) (cutoff : Int) (store : List CacheEntry) :
    (buildFindCriteria hv (some cutoff)).limit = 1 ∧
    (buildFindCriteria hv (some cutoff)).sort = "createdAt DESC" ∧
    (∀ e : CacheEntry, matchesFind (buildFindCriteria hv (some cutoff)) e = true ↔
      e.hash = hv ∧ e.createdAt > cutoff) ∧
    (∀ e ∈ runFind store (buildFindCriteria hv (some cutoff)),
      e.hash = hv ∧ e.createdAt > cutoff) ∧
    (∀ e : CacheEntry, e.createdAt = cutoff →
      e ∉ runFind store (buildFindCriteria hv (some cutoff))) := by
  have hiff : ∀ e : CacheEntry, matchesFind (buildFindCriteria hv (some cutoff)) e = true ↔
      e.hash = hv ∧ e.createdAt > cutoff := by
    intro e
    simp [matchesFind, buildFindCriteria]
  refine ⟨rfl, rfl, hiff, ?_, ?_⟩
  · intro e he
    exact (hiff e).mp (mem_runFind he).2
  · intro e hcut hmem
    have := (hiff e).mp (mem_runFind hmem).2
    omega

/-- Witness for C7 at a concrete store: the entry sitting exactly on the
cutoff is not returned by the lookup. -/
theorem C7_freshness_boundary_witness :
    entryAtCutoff ∉ runFind [entryAtCutoff] (buildFindCriteria (.vstr "h1") (some 100)) :=
  (C7_freshness_boundary (.vstr "h1") 100 [entryAtCutoff]).2.2.2.2 entryAtCutoff rfl

/-- C1: with caching enabled and a derived hash, when the conforming store's
find answer is nonempty and its first (newest) entry has defined data, the
unit's fn is never invoked and the run delivers exactly that stored data
value through the success continuation; the delivered entry matches the
freshness criteria and is newest among all matching entries of the store. -/
theorem C1_hit_skips_fn_and_forwards_stored (m : MachineState) (now : Int)
    (store : List CacheEntry) (h : String) (c : NormCache)
    (fnAct : Option (String × Value)) (e0 : CacheEntry) (rest : List CacheEntry)
    (hc : (normalizeCache (mergeCacheInput m).cacheSettings now).1 = some c)
    (hfind : runFind store (buildFindCriteria (.vstr h) c.expirationDate) = e0 :: rest)
    (hdata : e0.data ≠ Value.undefined) :
    (∀ i x, Ev.fnCall i x ∉ (exec m now (.ok h) (conformingStore store) fnAct).1) ∧
    (exec m now (.ok h) (conformingStore store) fnAct).1 =
      [Ev.findOp (buildFindCriteria (.vstr h) c.expirationDate),
       Ev.exitCalled "success" e0.data] ∧
    matchesFind (buildFindCriteria (.vstr h) c.expirationDate) e0 = true ∧
    (∀ e ∈ store, matchesFind (buildFindCriteria (.vstr h) c.expirationDate) e = true →
      e.createdAt ≤ e0.createdAt) := by
  have hfR : (conformingStore store).findR (buildFindCriteria (.vstr h) c.expirationDate) =
      .ok (e0 :: rest) := by
    simp [conformingStore, hfind]
  have htr : (exec m now (.ok h) (conformingStore store) fnAct).1 =
      [Ev.findOp (buildFindCriteria (.vstr h) c.expirationDate),
       Ev.exitCalled "success" e0.data] := by
    rw [exec_events_eq, hc, execEvents_hit c _ h (conformingStore store) fnAct e0 rest hfR hdata]
  have hmemFind : e0 ∈ runFind store (buildFindCriteria (.vstr h) c.expirationDate) := by
    rw [hfind]
    exact List.mem_cons_self e0 rest
  obtain ⟨t, hsort, -⟩ := take_one_cons hfind
  refine ⟨?_, htr, (mem_runFind hmemFind).2, ?_⟩
  · intro i x hmem
    rw [htr] at hmem
    simp at hmem
  · intro e he hm
    exact sortDesc_head_max hsort e (List.mem_filter.mpr ⟨he, hm⟩)

/-- Witness for C1: a concrete machine and store with one fresh entry; the
run delivers the stored value without invoking fn. -/
theorem C1_hit_skips_fn_and_forwards_stored_witness :
    (∀ i x, Ev.fnCall i x ∉
      (exec mOK 10800100 (.ok "h1") (conformingStore [entryFresh]) none).1) ∧
    (exec mOK 10800100 (.ok "h1") (conformingStore [entryFresh]) none).1 =
      [Ev.findOp (buildFindCriteria (.vstr "h1") normOK.expirationDate),
       Ev.exitCalled "success" entryFresh.data] ∧
    matchesFind (buildFindCriteria (.vstr "h1") normOK.expirationDate) entryFresh = true ∧
    (∀ e ∈ [entryFresh],
      matchesFind (buildFindCriteria (.vstr "h1") normOK.expirationDate) e = true →
      e.createdAt ≤ entryFresh.createdAt) :=
  C1_hit_skips_fn_and_forwards_stored mOK 10800100 [entryFresh] "h1" normOK none
    entryFresh [] (by decide) (by decide) (by decide)

theorem execEvents_hashError (c : NormCache) (m2 : MachineState) (sb : StoreBehavior)
    (fnAct : Option (String × Value)) (e : Value) :
    execEvents (some c) m2 (.error e) sb fnAct =
      fallbackEvents (some c) none (some e) m2 sb fnAct := rfl

theorem execEvents_findError (c : NormCache) (m2 : MachineState) (h : String)
    (sb : StoreBehavior) (fnAct : Option (String × Value)) (e : Value)
    (hfe : sb.findR (buildFindCriteria (.vstr h) c.expirationDate) = .error e) :
    execEvents (some c) m2 (.ok h) sb fnAct =
      Ev.findOp (buildFindCriteria (.vstr h) c.expirationDate) ::
        fallbackEvents (some c) (some h) (some e) m2 sb fnAct := by
  simp only [execEvents]
  rw [hfe]

theorem execEvents_missEmpty (c : NormCache) (m2 : MachineState) (h : String)
    (sb : StoreBehavior) (fnAct : Option (String × Value))
    (hf : sb.findR (buildFindCriteria (.vstr h) c.expirationDate) = .ok []) :
    execEvents (some c) m2 (.ok h) sb fnAct =
      Ev.findOp (buildFindCriteria (.vstr h) c.expirationDate) ::
        fallbackEvents (some c) (some h) none m2 sb fnAct := by
  simp only [execEvents]
  rw [hf]

theorem execEvents_missUndef (c : NormCache) (m2 : MachineState) (h : String)
    (sb : StoreBehavior) (fnAct : Option (String × Value)) (e0 : CacheEntry)
    (rest : List CacheEntry)
    (hf : sb.findR (buildFindCriteria (.vstr h) c.expirationDate) = .ok (e0 :: rest))
    (hd : e0.data = Value.undefined) :
    execEvents (some c) m2 (.ok h) sb fnAct =
      Ev.findOp (buildFindCriteria (.vstr h) c.expirationDate) ::
        fallbackEvents (some c) (some h) none m2 sb fnAct := by
  simp only [execEvents]
  rw [hf]
  simp [hd]

theorem warn_mem_fallbackEvents (nc : Option NormCache) (hash : Option String)
    (m2 : MachineState) (sb : StoreBehavior) (fnAct : Option (String × Value)) (e : Value) :
    Ev.warn e ∈ fallbackEvents nc hash (some e) m2 sb fnAct := by
  unfold fallbackEvents
  simp [List.mem_append]

theorem fallbackEvents_noAct_no_exitCalled (nc : Option NormCache) (hash : Option String)
    (err : Option Value) (m2 : MachineState) (sb : StoreBehavior) (n : String) (d : Value) :
    Ev.exitCalled n d ∉ fallbackEvents nc hash err m2 sb none := by
  intro hev
  unfold fallbackEvents at hev
  rw [List.mem_append] at hev
  rcases hev with hev | hev
  · rw [List.mem_append] at hev
    rcases hev with hev | hev
    · rw [List.mem_append] at hev
      rcases hev with hev | hev
      · split at hev <;> simp at hev
      · split at hev
        · exact (mem_gcEvents _ _ _ _ hev).2.2.1 n d rfl
        · simp at hev
    · simp at hev
  · simp at hev

theorem exec_disabled_run (m : MachineState) (now : Int) (hres : Except Value String)
    (sb : StoreBehavior) (fnAct : Option (String × Value))
    (hinv : validCacheVal (mergeCacheInput m).cacheSettings = false) :
    (∀ ev ∈ (exec m now hres sb fnAct).1, Ev.isStoreOp ev = false) ∧
    Ev.fnCall (mergeCacheInput m).configuredInputs (mergeCacheInput m).configuredContexts ∈
      (exec m now hres sb fnAct).1 ∧
    (exec m now hres sb fnAct).2 = mergeCacheInput m := by
  have hn : normalizeCache (mergeCacheInput m).cacheSettings now =
      (none, (mergeCacheInput m).cacheSettings) := by
    simp [normalizeCache, hinv]
  have hm2 : (exec m now hres sb fnAct).2 = mergeCacheInput m := by
    show ({ mergeCacheInput m with
      cacheSettings := (normalizeCache (mergeCacheInput m).cacheSettings now).2 } :
        MachineState) = mergeCacheInput m
    rw [hn]
  have h1 : (exec m now hres sb fnAct).1 =
      fallbackEvents none none none
        { mergeCacheInput m with
          cacheSettings := (normalizeCache (mergeCacheInput m).cacheSettings now).2 }
        sb fnAct := by
    rw [exec_events_eq, hn]
    rfl
  refine ⟨?_, ?_, hm2⟩
  · intro ev hev
    rw [h1] at hev
    exact fallbackEvents_none_no_storeOp _ _ _ _ _ _ hev
  · rw [h1]
    exact fnCall_mem_fallbackEvents _ _ _ _ _ _

/-- C3: a find error (and likewise a hash-derivation error) is surfaced only
through the warn channel; the run still invokes the unit's fn, and when the
unit itself traverses nothing, no exit continuation is ever invoked, so no
fatal error reaches the caller.  In particular, with a store whose find
always errors, every invocation executes the function. -/
theorem C3_fallback_on_error (m : MachineState) (now : Int) (sb : StoreBehavior)
    (h : String) (e : Value) (fnAct : Option (String × Value)) (c : NormCache)
    (hc : (normalizeCache (mergeCacheInput m).cacheSettings now).1 = some c) :
    (sb.findR (buildFindCriteria (.vstr h) c.expirationDate) = .error e →
      Ev.warn e ∈ (exec m now (.ok h) sb fnAct).1 ∧
      Ev.fnCall (mergeCacheInput m).configuredInputs
        (mergeCacheInput m).configuredContexts ∈ (exec m now (.ok h) sb fnAct).1 ∧
      (fnAct = none → ∀ n d, Ev.exitCalled n d ∉ (exec m now (.ok h) sb fnAct).1)) ∧
    (Ev.warn e ∈ (exec m now (.error e) sb fnAct).1 ∧
      Ev.fnCall (mergeCacheInput m).configuredInputs
        (mergeCacheInput m).configuredContexts ∈ (exec m now (.error e) sb fnAct).1 ∧
      (fnAct = none → ∀ n d, Ev.exitCalled n d ∉ (exec m now (.error e) sb fnAct).1)) := by
  constructor
  · intro hfe
    have htr : (exec m now (.ok h) sb fnAct).1 =
        Ev.findOp (buildFindCriteria (.vstr h) c.expirationDate) ::
          fallbackEvents (some c) (some h) (some e)
            { mergeCacheInput m with
              cacheSettings := (normalizeCache (mergeCacheInput m).cacheSettings now).2 }
            sb fnAct := by
      rw [exec_events_eq, hc, execEvents_findError c _ h sb fnAct e hfe]
    refine ⟨?_, ?_, ?_⟩
    · rw [htr]
      exact List.mem_cons_of_mem _ (warn_mem_fallbackEvents _ _ _ _ _ _)
    · rw [htr]
      exact List.mem_cons_of_mem _ (fnCall_mem_fallbackEvents _ _ _ _ _ _)
    · rintro rfl n d hmem
      rw [htr, List.mem_cons] at hmem
      rcases hmem with hmem | hmem
      · simp at hmem
      · exact fallbackEvents_noAct_no_exitCalled _ _ _ _ _ n d hmem
  · have htr : (exec m now (.error e) sb fnAct).1 =
        fallbackEvents (some c) none (some e)
          { mergeCacheInput m with
            cacheSettings := (normalizeCache (mergeCacheInput m).cacheSettings now).2 }
          sb fnAct := by
      rw [exec_events_eq, hc, execEvents_hashError]
    refine ⟨?_, ?_, ?_⟩
    · rw [htr]
      exact warn_mem_fallbackEvents _ _ _ _ _ _
    · rw [htr]
      exact fnCall_mem_fallbackEvents _ _ _ _ _ _
    · rintro rfl n d hmem
      rw [htr] at hmem
      exact fallbackEvents_noAct_no_exitCalled _ _ _ _ _ n d hmem

/-- Witness for C3: a concrete machine with a store whose find always
errors; the error is warned, fn runs, no exit continuation is invoked. -/
theorem C3_fallback_on_error_witness :
    Ev.warn (.vstr "boom") ∈
      (exec mOK 10800100 (.ok "h1") (alwaysFindError (.vstr "boom")) none).1 ∧
    Ev.fnCall (mergeCacheInput mOK).configuredInputs
      (mergeCacheInput mOK).configuredContexts ∈
      (exec mOK 10800100 (.ok "h1") (alwaysFindError (.vstr "boom")) none).1 ∧
    (∀ n d, Ev.exitCalled n d ∉
      (exec mOK 10800100 (.ok "h1") (alwaysFindError (.vstr "boom")) none).1) := by
  have h := (C3_fallback_on_error mOK 10800100 (alwaysFindError (.vstr "boom")) "h1"
    (.vstr "boom") none normOK (by decide)).1 rfl
  exact ⟨h.1, h.2.1, h.2.2 rfl⟩

/-- C8: when the merged cache settings are not an object holding a model
with find and create functions, a run issues no store operation at all and
always invokes the unit's fn; the machine state after the run keeps the
cache invalid, so the follow-up run behaves the same. -/
theorem C8_disabled_cache_never_touches_store (m : MachineState) (now now2 : Int)
    (hres hres2 : Except Value String) (sb sb2 : StoreBehavior)
    (fnAct fnAct2 : Option (String × Value))
    (hinv : validCacheVal (mergeCacheInput m).cacheSettings = false) :
    (∀ ev ∈ (exec m now hres sb fnAct).1, Ev.isStoreOp ev = false) ∧
    Ev.fnCall (mergeCacheInput m).configuredInputs
      (mergeCacheInput m).configuredContexts ∈ (exec m now hres sb fnAct).1 ∧
    (∀ ev ∈ (exec (exec m now hres sb fnAct).2 now2 hres2 sb2 fnAct2).1,
      Ev.isStoreOp ev = false) ∧
    (∃ i x, Ev.fnCall i x ∈ (exec (exec m now hres sb fnAct).2 now2 hres2 sb2 fnAct2).1) := by
  obtain ⟨ha, hb, hm2⟩ := exec_disabled_run m now hres sb fnAct hinv
  have hinv2 : validCacheVal (mergeCacheInput (exec m now hres sb fnAct).2).cacheSettings =
      false := by
    rw [hm2, mergeCacheInput_idem]
    exact hinv
  obtain ⟨ha2, hb2, -⟩ := exec_disabled_run _ now2 hres2 sb2 fnAct2 hinv2
  exact ⟨ha, hb, ha2, ⟨_, _, hb2⟩⟩

/-- Witness for C8: a concrete machine with undefined cache settings; two
consecutive runs issue no store operation and both invoke fn. -/
theorem C8_disabled_cache_never_touches_store_witness :
    (∀ ev ∈ (exec mFalsyCache 0 (.ok "h") (conformingStore []) none).1,
      Ev.isStoreOp ev = false) ∧
    Ev.fnCall (mergeCacheInput mFalsyCache).configuredInputs
      (mergeCacheInput mFalsyCache).configuredContexts ∈
      (exec mFalsyCache 0 (.ok "h") (conformingStore []) none).1 ∧
    (∀ ev ∈ (exec (exec mFalsyCache 0 (.ok "h") (conformingStore []) none).2 1
      (.ok "h") (conformingStore []) none).1, Ev.isStoreOp ev = false) ∧
    (∃ i x, Ev.fnCall i x ∈ (exec (exec mFalsyCache 0 (.ok "h") (conformingStore []) none).2 1
      (.ok "h") (conformingStore []) none).1) :=
  C8_disabled_cache_never_touches_store mFalsyCache 0 1 (.ok "h") (.ok "h")
    (conformingStore []) (conformingStore []) none none (by decide)

theorem traverseExit_intercept (c : NormCache) (h : String) (exits : List String)
    (sb : StoreBehavior) (name : String) (d : Value)
    (hmem : name ∈ exits) (hh : h ≠ "") (hexit : c.exit = .vstr name) :
    traverseExit (some c) (some h) exits sb name d =
      (Ev.createOp (.vstr h) d ::
        (match sb.createR (.vstr h) d with
         | .error e => [Ev.warn e]
         | .ok _ => [])) ++ [Ev.exitCalled name d] := by
  simp [traverseExit, hmem, hh, hexit]

theorem mem_fallbackEvents_of_mem_traverse (nc : Option NormCache) (hash : Option String)
    (err : Option Value) (m2 : MachineState) (sb : StoreBehavior) (n : String) (d : Value)
    (ev : Ev) (hev : ev ∈ traverseExit nc hash m2.configuredExits sb n d) :
    ev ∈ fallbackEvents nc hash err m2 sb (some (n, d)) := by
  unfold fallbackEvents
  rw [List.mem_append]
  exact Or.inr hev

theorem fallbackEvents_filter_create_some (nc : Option NormCache) (hash : Option String)
    (err : Option Value) (m2 : MachineState) (sb : StoreBehavior) (n : String) (d : Value) :
    (fallbackEvents nc hash err m2 sb (some (n, d))).filter Ev.isCreateOp =
      (traverseExit nc hash m2.configuredExits sb n d).filter Ev.isCreateOp := by
  cases err <;> cases nc <;>
    simp [fallbackEvents, List.filter_append, gcEvents_filter_create, Ev.isCreateOp]

/-- C2: on a run with caching enabled, a derived (truthy) hash and a lookup
that fell back (any miss shape), if the unit traverses the configured
cacheable exit with value d, then exactly one create operation is issued,
carrying exactly the pair (hash, d); the value d is forwarded to the
original continuation of that exit for every possible create outcome, and a
create failure additionally surfaces as a warning. -/
theorem C2_cacheable_exit_write_then_forward (m : MachineState) (now : Int)
    (sb : StoreBehavior) (h : String) (d : Value) (exitName : String) (c : NormCache)
    (hc : (normalizeCache (mergeCacheInput m).cacheSettings now).1 = some c)
    (hh : h ≠ "")
    (hexit : c.exit = .vstr exitName)
    (hmem : exitName ∈ (mergeCacheInput m).configuredExits)
    (hfb : fellBackFind (sb.findR (buildFindCriteria (.vstr h) c.expirationDate)) = true) :
    ((exec m now (.ok h) sb (some (exitName, d))).1.filter Ev.isCreateOp =
      [Ev.createOp (.vstr h) d]) ∧
    Ev.exitCalled exitName d ∈ (exec m now (.ok h) sb (some (exitName, d))).1 ∧
    (∀ e2, sb.createR (.vstr h) d = .error e2 →
      Ev.warn e2 ∈ (exec m now (.ok h) sb (some (exitName, d))).1) := by
  have hfc : ∀ errOpt : Option Value,
      ((Ev.findOp (buildFindCriteria (.vstr h) c.expirationDate) ::
        fallbackEvents (some c) (some h) errOpt
          { mergeCacheInput m with
            cacheSettings := (normalizeCache (mergeCacheInput m).cacheSettings now).2 }
          sb (some (exitName, d))).filter Ev.isCreateOp =
        [Ev.createOp (.vstr h) d]) ∧
      Ev.exitCalled exitName d ∈
        Ev.findOp (buildFindCriteria (.vstr h) c.expirationDate) ::
          fallbackEvents (some c) (some h) errOpt
            { mergeCacheInput m with
              cacheSettings := (normalizeCache (mergeCacheInput m).cacheSettings now).2 }
            sb (some (exitName, d)) ∧
      (∀ e2, sb.createR (.vstr h) d = .error e2 →
        Ev.warn e2 ∈
          Ev.findOp (buildFindCriteria (.vstr h) c.expirationDate) ::
            fallbackEvents (some c) (some h) errOpt
              { mergeCacheInput m with
                cacheSettings := (normalizeCache (mergeCacheInput m).cacheSettings now).2 }
              sb (some (exitName, d))) := by
    intro errOpt
    have hti := traverseExit_intercept c h
      ({ mergeCacheInput m with
        cacheSettings := (normalizeCache (mergeCacheInput m).cacheSettings now).2 } :
          MachineState).configuredExits sb exitName d hmem hh hexit
    refine ⟨?_, ?_, ?_⟩
    · rw [List.filter_cons_of_neg (by simp [Ev.isCreateOp]),
        fallbackEvents_filter_create_some, hti]
      cases hcr : sb.createR (.vstr h) d <;>
        simp [List.filter_append, Ev.isCreateOp]
    · refine List.mem_cons_of_mem _ (mem_fallbackEvents_of_mem_traverse _ _ _ _ _
        exitName d _ ?_)
      rw [hti]
      simp
    · intro e2 hcr
      refine List.mem_cons_of_mem _ (mem_fallbackEvents_of_mem_traverse _ _ _ _ _
        exitName d _ ?_)
      rw [hti, hcr]
      simp
  rcases hfr : sb.findR (buildFindCriteria (.vstr h) c.expirationDate) with e | lst
  · have htr : (exec m now (.ok h) sb (some (exitName, d))).1 =
        Ev.findOp (buildFindCriteria (.vstr h) c.expirationDate) ::
          fallbackEvents (some c) (some h) (some e)
            { mergeCacheInput m with
              cacheSettings := (normalizeCache (mergeCacheInput m).cacheSettings now).2 }
            sb (some (exitName, d)) := by
      rw [exec_events_eq, hc, execEvents_findError c _ h sb _ e hfr]
    rw [htr]
    exact hfc (some e)
  · cases lst with
    | nil =>
      have htr : (exec m now (.ok h) sb (some (exitName, d))).1 =
          Ev.findOp (buildFindCriteria (.vstr h) c.expirationDate) ::
            fallbackEvents (some c) (some h) none
              { mergeCacheInput m with
                cacheSettings := (normalizeCache (mergeCacheInput m).cacheSettings now).2 }
              sb (some (exitName, d)) := by
        rw [exec_events_eq, hc, execEvents_missEmpty c _ h sb _ hfr]
      rw [htr]
      exact hfc none
    | cons e0 rest =>
      have hd0 : e0.data = Value.undefined := by
        rw [hfr] at hfb
        simpa [fellBackFind] using hfb
      have htr : (exec m now (.ok h) sb (some (exitName, d))).1 =
          Ev.findOp (buildFindCriteria (.vstr h) c.expirationDate) ::
            fallbackEvents (some c) (some h) none
              { mergeCacheInput m with
                cacheSettings := (normalizeCache (mergeCacheInput m).cacheSettings now).2 }
              sb (some (exitName, d)) := by
        rw [exec_events_eq, hc, execEvents_missUndef c _ h sb _ e0 rest hfr hd0]
      rw [htr]
      exact hfc none

/-- Witness for C2: a concrete miss on an empty conforming store; the run
writes exactly one entry with the delivered value and forwards it. -/
theorem C2_cacheable_exit_write_then_forward_witness :
    ((exec mOK 10800100 (.ok "h1") (conformingStore [])
      (some ("success", .vstr "out"))).1.filter Ev.isCreateOp =
      [Ev.createOp (.vstr "h1") (.vstr "out")]) ∧
    Ev.exitCalled "success" (.vstr "out") ∈
      (exec mOK 10800100 (.ok "h1") (conformingStore [])
        (some ("success", .vstr "out"))).1 ∧
    (∀ e2, (conformingStore []).createR (.vstr "h1") (.vstr "out") = .error e2 →
      Ev.warn e2 ∈ (exec mOK 10800100 (.ok "h1") (conformingStore [])
        (some ("success", .vstr "out"))).1) :=
  C2_cacheable_exit_write_then_forward mOK 10800100 (conformingStore []) "h1"
    (.vstr "out") "success" normOK (by decide) (by decide) (by decide) (by decide)
    (by decide)

theorem gcEvents_destroy_pos (c : NormCache) (h : Option String) (sb : StoreBehavior)
    (n : Int)
    (hcnt : sb.countR { hash := hashCrit h, createdAtLe := c.expirationDate } = .ok n)
    (hgt : jsGtNum n c.maxOldEntriesBuffer = true) :
    Ev.destroyOp
      { hash := hashCrit h
        createdAtLe := c.expirationDate
        sort := "createdAt DESC"
        skip := c.maxOldEntriesBuffer } ∈ gcEvents c h sb := by
  simp only [gcEvents]
  rw [hcnt]
  simp [hgt]

theorem gcEvents_no_destroy (c : NormCache) (h : Option String) (sb : StoreBehavior)
    (n : Int)
    (hcnt : sb.countR { hash := hashCrit h, createdAtLe := c.expirationDate } = .ok n)
    (hle : jsGtNum n c.maxOldEntriesBuffer = false) (dc : DestroyCriteria) :
    Ev.destroyOp dc ∉ gcEvents c h sb := by
  intro hmem
  simp only [gcEvents] at hmem
  rw [hcnt] at hmem
  simp [hle] at hmem

theorem mem_fallback_of_mem_gc (c : NormCache) (hash : Option String) (err : Option Value)
    (m2 : MachineState) (sb : StoreBehavior) (fnAct : Option (String × Value)) (ev : Ev)
    (h : ev ∈ gcEvents c hash sb) :
    ev ∈ fallbackEvents (some c) hash err m2 sb fnAct := by
  unfold fallbackEvents
  rw [List.mem_append, List.mem_append, List.mem_append]
  exact Or.inl (Or.inl (Or.inr h))

theorem destroyOp_mem_fallback (nc : Option NormCache) (hash : Option String)
    (err : Option Value) (m2 : MachineState) (sb : StoreBehavior)
    (fnAct : Option (String × Value)) (dc : DestroyCriteria)
    (h : Ev.destroyOp dc ∈ fallbackEvents nc hash err m2 sb fnAct) :
    ∃ c, nc = some c ∧ Ev.destroyOp dc ∈ gcEvents c hash sb := by
  unfold fallbackEvents at h
  rw [List.mem_append] at h
  rcases h with h | h
  · rw [List.mem_append] at h
    rcases h with h | h
    · rw [List.mem_append] at h
      rcases h with h | h
      · split at h <;> simp at h
      · split at h
        · exact ⟨_, rfl, h⟩
        · simp at h
    · simp at h
  · split at h
    · exact absurd rfl ((mem_traverseExit _ _ _ _ _ _ _ h).2.2.1 dc)
    · simp at h

/-- C5: after a cache miss for a derived hash whose store holds N stale
entries with pairwise distinct timestamps, if N exceeds the
maxOldEntriesBuffer B then the garbage collector issues a destroy restricted
to that hash and createdAt at or before the cutoff, sorted createdAt
descending with skip B; a conforming store thereby deletes exactly N minus B
entries, every deleted entry is at least as old as every retained stale
entry, and exactly the B newest stale entries remain.  When N is at most B,
no destroy is issued at all. -/
theorem C5_gc_retention (m : MachineState) (now : Int) (store : List CacheEntry)
    (h : String) (c : NormCache) (fnAct : Option (String × Value)) (B cutoff : Int)
    (hc : (normalizeCache (mergeCacheInput m).cacheSettings now).1 = some c)
    (hcut : c.expirationDate = some cutoff)
    (hbuf : c.maxOldEntriesBuffer = Value.vnum B)
    (_hB : 0 ≤ B)
    (hmiss : runFind store (buildFindCriteria (.vstr h) c.expirationDate) = [])
    (hdist : (staleOf store h cutoff).Pairwise (fun a b => a.createdAt ≠ b.createdAt)) :
    (((staleOf store h cutoff).length : Int) > B →
      Ev.destroyOp (gcDestroyCriteria h cutoff (.vnum B)) ∈
        (exec m now (.ok h) (conformingStore store) fnAct).1 ∧
      (runDestroy store (gcDestroyCriteria h cutoff (.vnum B))).length =
        (staleOf store h cutoff).length - B.toNat ∧
      ((remainingAfterDestroy store (gcDestroyCriteria h cutoff (.vnum B))).filter
        (matchesStale (.vstr h) (some cutoff))).Perm
        ((sortDesc (staleOf store h cutoff)).take B.toNat) ∧
      (∀ x ∈ runDestroy store (gcDestroyCriteria h cutoff (.vnum B)),
        ∀ y ∈ (sortDesc (staleOf store h cutoff)).take B.toNat,
          x.createdAt ≤ y.createdAt)) ∧
    (((staleOf store h cutoff).length : Int) ≤ B →
      ∀ dc2, Ev.destroyOp dc2 ∉ (exec m now (.ok h) (conformingStore store) fnAct).1) := by
  have hfr : (conformingStore store).findR (buildFindCriteria (.vstr h) c.expirationDate) =
      .ok [] := by
    simp [conformingStore, hmiss]
  have htr : (exec m now (.ok h) (conformingStore store) fnAct).1 =
      Ev.findOp (buildFindCriteria (.vstr h) c.expirationDate) ::
        fallbackEvents (some c) (some h) none
          { mergeCacheInput m with
            cacheSettings := (normalizeCache (mergeCacheInput m).cacheSettings now).2 }
          (conformingStore store) fnAct := by
    rw [exec_events_eq, hc, execEvents_missEmpty c _ h (conformingStore store) fnAct hfr]
  have hcnt : (conformingStore store).countR
      { hash := hashCrit (some h), createdAtLe := c.expirationDate } =
      .ok ((staleOf store h cutoff).length : Int) := by
    simp [conformingStore, runCount, hashCrit, hcut, staleOf]
  have hskip : skipNat (Value.vnum B) = B.toNat := by
    simp [skipNat, jsToNum]
  have hdestroyed : runDestroy store (gcDestroyCriteria h cutoff (.vnum B)) =
      (sortDesc (staleOf store h cutoff)).drop B.toNat := by
    simp [runDestroy, gcDestroyCriteria, hskip, staleOf]
  constructor
  · intro hgt
    have hjs : jsGtNum ((staleOf store h cutoff).length : Int) c.maxOldEntriesBuffer = true := by
      simp [jsGtNum, jsToNum, hbuf]
      omega
    refine ⟨?_, ?_, ?_, ?_⟩
    · rw [htr]
      refine List.mem_cons_of_mem _ (mem_fallback_of_mem_gc _ _ _ _ _ _ _ ?_)
      have := gcEvents_destroy_pos c (some h) (conformingStore store) _ hcnt hjs
      simpa [hashCrit, hcut, hbuf, gcDestroyCriteria] using this
    · rw [hdestroyed, List.length_drop, (sortDesc_perm _).length_eq]
    · have hnd : (staleOf store h cutoff).Nodup := nodup_of_pairwise_ne_createdAt hdist
      have hndS : (sortDesc (staleOf store h cutoff)).Nodup :=
        (sortDesc_perm _).nodup_iff.mpr hnd
      have hsplit : (sortDesc (staleOf store h cutoff)).take B.toNat ++
          (sortDesc (staleOf store h cutoff)).drop B.toNat =
          sortDesc (staleOf store h cutoff) := List.take_append_drop _ _
      have hdisj : ((sortDesc (staleOf store h cutoff)).take B.toNat).Disjoint
          ((sortDesc (staleOf store h cutoff)).drop B.toNat) :=
        List.disjoint_of_nodup_append (by rwa [hsplit])
      have hstep1 : (remainingAfterDestroy store (gcDestroyCriteria h cutoff (.vnum B))).filter
          (matchesStale (.vstr h) (some cutoff)) =
          (staleOf store h cutoff).filter
            (fun e => !(decide (e ∈ runDestroy store (gcDestroyCriteria h cutoff (.vnum B))))) := by
        unfold remainingAfterDestroy staleOf
        rw [List.filter_filter, List.filter_filter]
        exact List.filter_congr fun e _ => by
          simp [Bool.and_comm]
      have hstep2 : ((staleOf store h cutoff).filter
          (fun e => !(decide (e ∈ runDestroy store (gcDestroyCriteria h cutoff (.vnum B)))))).Perm
          ((sortDesc (staleOf store h cutoff)).filter
            (fun e => !(decide (e ∈ runDestroy store (gcDestroyCriteria h cutoff (.vnum B)))))) :=
        ((sortDesc_perm _).filter _).symm
      have hstep3 : (sortDesc (staleOf store h cutoff)).filter
          (fun e => !(decide (e ∈ runDestroy store (gcDestroyCriteria h cutoff (.vnum B))))) =
          (sortDesc (staleOf store h cutoff)).take B.toNat := by
        rw [hdestroyed, ← hsplit, List.filter_append]
        have h1 : ((sortDesc (staleOf store h cutoff)).take B.toNat).filter
            (fun e => !(decide (e ∈ ((sortDesc (staleOf store h cutoff)).take B.toNat ++
              (sortDesc (staleOf store h cutoff)).drop B.toNat).drop B.toNat))) =
            (sortDesc (staleOf store h cutoff)).take B.toNat := by
          rw [hsplit]
          refine List.filter_eq_self.mpr fun e he => by
            simp only [Bool.not_eq_eq_eq_not, Bool.not_true, decide_eq_false_iff_not]
            exact hdisj he
        have h2 : ((sortDesc (staleOf store h cutoff)).drop B.toNat).filter
            (fun e => !(decide (e ∈ ((sortDesc (staleOf store h cutoff)).take B.toNat ++
              (sortDesc (staleOf store h cutoff)).drop B.toNat).drop B.toNat))) = [] := by
          rw [hsplit]
          refine List.filter_eq_nil_iff.mpr fun e he => by
            simp [he]
        rw [h1, h2, List.append_nil, hsplit]
      rw [hstep1]
      exact hstep2.trans (hstep3 ▸ List.Perm.refl _)
    · intro x hx y hy
      rw [hdestroyed] at hx
      exact pairwise_take_drop (sortDesc_sorted (staleOf store h cutoff)) B.toNat y hy x hx
  · intro hle dc2 hmem
    rw [htr, List.mem_cons] at hmem
    rcases hmem with hmem | hmem
    · simp at hmem
    · obtain ⟨c2, hc2, hmemgc⟩ := destroyOp_mem_fallback _ _ _ _ _ _ _ hmem
      obtain rfl : c = c2 := by injection hc2
      have hjs : jsGtNum ((staleOf store h cutoff).length : Int) c.maxOldEntriesBuffer =
          false := by
        simp [jsGtNum, jsToNum, hbuf]
        omega
      exact gcEvents_no_destroy c (some h) (conformingStore store) _ hcnt hjs dc2 hmemgc

/-- Witness for C5: three stale entries, buffer one; the destroy is issued,
two entries (the oldest two) are deleted and the newest stale entry
remains. -/
theorem C5_gc_retention_witness :
    Ev.destroyOp (gcDestroyCriteria "h1" 100 (.vnum 1)) ∈
      (exec mBuf 10800100 (.ok "h1") (conformingStore [staleA, staleB, staleC]) none).1 ∧
    (runDestroy [staleA, staleB, staleC] (gcDestroyCriteria "h1" 100 (.vnum 1))).length =
      (staleOf [staleA, staleB, staleC] "h1" 100).length - (1 : Int).toNat ∧
    ((remainingAfterDestroy [staleA, staleB, staleC]
      (gcDestroyCriteria "h1" 100 (.vnum 1))).filter
        (matchesStale (.vstr "h1") (some 100))).Perm
      ((sortDesc (staleOf [staleA, staleB, staleC] "h1" 100)).take (1 : Int).toNat) ∧
    (∀ x ∈ runDestroy [staleA, staleB, staleC] (gcDestroyCriteria "h1" 100 (.vnum 1)),
      ∀ y ∈ (sortDesc (staleOf [staleA, staleB, staleC] "h1" 100)).take (1 : Int).toNat,
        x.createdAt ≤ y.createdAt) :=
  (C5_gc_retention mBuf 10800100 [staleA, staleB, staleC] "h1" normBuf none 1 100
    (by decide) (by decide) (by decide) (by decide) (by decide) (by decide)).1 (by decide)

theorem execEvents_filter_fnCall (nc : Option NormCache) (m2 : MachineState)
    (hres : Except Value String) (sb : StoreBehavior) (fnAct : Option (String × Value)) :
    (execEvents nc m2 hres sb fnAct).filter Ev.isFnCall =
      if tookHit nc hres sb then []
      else [Ev.fnCall m2.configuredInputs m2.configuredContexts] := by
  rcases nc with _ | c
  · simp [execEvents, tookHit, fallbackEvents_filter_fnCall]
  · rcases hres with e | h
    · simp [execEvents, tookHit, fallbackEvents_filter_fnCall]
    · simp only [execEvents]
      rcases hfr : sb.findR (buildFindCriteria (.vstr h) c.expirationDate) with e | lst
      · simp [tookHit, hfr, fallbackEvents_filter_fnCall, Ev.isFnCall]
      · cases lst with
        | nil => simp [tookHit, hfr, fallbackEvents_filter_fnCall, Ev.isFnCall]
        | cons e0 rest =>
          by_cases hd : e0.data = Value.undefined
          · simp [tookHit, hfr, hd, fallbackEvents_filter_fnCall, Ev.isFnCall]
          · simp [tookHit, hfr, hd, Ev.isFnCall]

theorem fnCall_mem_exec (m : MachineState) (now : Int) (hres : Except Value String)
    (sb : StoreBehavior) (fnAct : Option (String × Value)) (i x : Value)
    (h : Ev.fnCall i x ∈ (exec m now hres sb fnAct).1) :
    i = (mergeCacheInput m).configuredInputs ∧
      x = (mergeCacheInput m).configuredContexts := by
  have hm : Ev.fnCall i x ∈ (exec m now hres sb fnAct).1.filter Ev.isFnCall :=
    List.mem_filter.mpr ⟨h, by simp [Ev.isFnCall]⟩
  rw [exec_events_eq, execEvents_filter_fnCall] at hm
  split at hm
  · simp at hm
  · simp only [List.mem_singleton, Ev.fnCall.injEq] at hm
    exact hm

/-- C6 counterexample: a run whose hash derivation fails (the hash result is
an error) still launches the garbage collector — a count operation, with an
undefined hash criterion, is issued against the store.  This falsifies the
claim that the garbage collector is never launched when hash derivation
failed. -/
theorem C6_counterexample_gc_after_hash_failure :
    Ev.countOp { hash := Value.undefined, createdAtLe := some 100 } ∈
      (exec mOK 10800100 (.error (.vstr "boom")) (conformingStore []) none).1 := by
  decide

/-- C6 as amended: the garbage collector's count operation is issued exactly
when caching is enabled and the run did not deliver a hit — so never on a
hit and never with caching disabled, but also (contrary to the original
claim) after a hash-derivation failure, where the count criteria carry an
undefined hash; a destroy is only ever issued under the same condition; and
the invocation of the unit's fn is unchanged under any alteration of the
store's count and destroy behaviour, so the run never waits on the garbage
collector's outcome to start fn. -/
theorem C6_amended_gc_exactly_on_fallback (m : MachineState) (now : Int)
    (hres : Except Value String) (sb sb' : StoreBehavior)
    (fnAct : Option (String × Value))
    (hfind : sb'.findR = sb.findR) (_hcreate : sb'.createR = sb.createR) :
    ((∃ cc, Ev.countOp cc ∈ (exec m now hres sb fnAct).1) ↔
      (((normalizeCache (mergeCacheInput m).cacheSettings now).1).isSome = true ∧
        tookHit (normalizeCache (mergeCacheInput m).cacheSettings now).1 hres sb = false)) ∧
    ((∃ dc, Ev.destroyOp dc ∈ (exec m now hres sb fnAct).1) →
      (((normalizeCache (mergeCacheInput m).cacheSettings now).1).isSome = true ∧
        tookHit (normalizeCache (mergeCacheInput m).cacheSettings now).1 hres sb = false)) ∧
    (∀ c e, (normalizeCache (mergeCacheInput m).cacheSettings now).1 = some c →
      hres = .error e →
      Ev.countOp { hash := Value.undefined, createdAtLe := c.expirationDate } ∈
        (exec m now hres sb fnAct).1) ∧
    ((exec m now hres sb fnAct).1.filter Ev.isFnCall =
      (exec m now hres sb' fnAct).1.filter Ev.isFnCall) := by
  have hth : tookHit (normalizeCache (mergeCacheInput m).cacheSettings now).1 hres sb' =
      tookHit (normalizeCache (mergeCacheInput m).cacheSettings now).1 hres sb := by
    unfold tookHit
    rw [hfind]
  refine ⟨?_, ?_, ?_, ?_⟩
  · rw [exec_events_eq]
    rcases hnc : (normalizeCache (mergeCacheInput m).cacheSettings now).1 with _ | c
    · constructor
      · rintro ⟨cc, hcc⟩
        have := fallbackEvents_none_no_storeOp _ _ _ _ _ _
          (by simpa [execEvents] using hcc)
        simp [Ev.isStoreOp] at this
      · rintro ⟨habs, -⟩
        simp at habs
    · rcases hres with e | h
      · constructor
        · intro
          simp [tookHit]
        · intro
          exact ⟨_, countOp_mem_fallbackEvents c none (some e) _ sb fnAct⟩
      · simp only [execEvents]
        rcases hfr : sb.findR (buildFindCriteria (.vstr h) c.expirationDate) with e | lst
        · constructor
          · intro
            simp [tookHit, hfr]
          · intro
            exact ⟨_, List.mem_cons_of_mem _
              (countOp_mem_fallbackEvents c (some h) (some e) _ sb fnAct)⟩
        · cases lst with
          | nil =>
            constructor
            · intro
              simp [tookHit, hfr]
            · intro
              exact ⟨_, List.mem_cons_of_mem _
                (countOp_mem_fallbackEvents c (some h) none _ sb fnAct)⟩
          | cons e0 rest =>
            by_cases hd : e0.data = Value.undefined
            · constructor
              · intro
                simp [tookHit, hfr, hd]
              · intro
                simp only [hd, ne_eq, not_true_eq_false, ite_false]
                exact ⟨_, List.mem_cons_of_mem _
                  (countOp_mem_fallbackEvents c (some h) none _ sb fnAct)⟩
            · constructor
              · rintro ⟨cc, hcc⟩
                simp [hd] at hcc
              · rintro ⟨-, habs⟩
                simp [tookHit, hfr, hd] at habs
  · rintro ⟨dc, hdc⟩
    rw [exec_events_eq] at hdc
    rcases hnc : (normalizeCache (mergeCacheInput m).cacheSettings now).1 with _ | c
    · rw [hnc] at hdc
      have := fallbackEvents_none_no_storeOp _ _ _ _ _ _
        (by simpa [execEvents] using hdc)
      simp [Ev.isStoreOp] at this
    · rw [hnc] at hdc
      rcases hres with e | h
      · simp [tookHit]
      · simp only [execEvents] at hdc
        rcases hfr : sb.findR (buildFindCriteria (.vstr h) c.expirationDate) with e | lst
        · simp [tookHit, hfr]
        · cases lst with
          | nil => simp [tookHit, hfr]
          | cons e0 rest =>
            by_cases hd : e0.data = Value.undefined
            · simp [tookHit, hfr, hd]
            · rw [hfr] at hdc
              simp only [hd, ne_eq, not_false_eq_true, if_true] at hdc
              simp at hdc
  · intro c e hc hre
    subst hre
    rw [exec_events_eq, hc]
    have := countOp_mem_fallbackEvents c none (some e)
      { mergeCacheInput m with
        cacheSettings := (normalizeCache (mergeCacheInput m).cacheSettings now).2 }
      sb fnAct
    simpa [hashCrit, execEvents] using this
  · rw [exec_events_eq, exec_events_eq, execEvents_filter_fnCall,
      execEvents_filter_fnCall, hth]

/-- Witness for the amended C6: a concrete run on an empty conforming store
against the same store with failing garbage collection; fn's invocation
events coincide. -/
theorem C6_amended_gc_exactly_on_fallback_witness :
    (exec mOK 10800100 (.ok "h1") (conformingStore []) none).1.filter Ev.isFnCall =
      (exec mOK 10800100 (.ok "h1") sbGcErr none).1.filter Ev.isFnCall :=
  (C6_amended_gc_exactly_on_fallback mOK 10800100 (.ok "h1") (conformingStore [])
    sbGcErr none rfl rfl).2.2.2

/-- C9 counterexample: a caller that supplies the reserved _cache input key
with a falsy value (false).  The key is neither merged nor removed: the
unit's fn is invoked with the _cache key still present in its inputs,
falsifying the claim that for every run supplying the key, fn never sees
it. -/
theorem C9_counterexample_falsy_cache_key_not_stripped :
    (exec mFalsyCache 0 (.ok "h") (conformingStore []) none).1 =
      [Ev.fnCall (.vobj (.cons "_cache" (.vbool false) (.cons "x" (.vnum 7) .nil)))
        Value.undefined] ∧
    getField (.vobj (.cons "_cache" (.vbool false) (.cons "x" (.vnum 7) .nil))) "_cache" ≠
      Value.undefined := by
  decide

/-- C9 as amended: only when the supplied reserved _cache input is truthy is
its value merged (lodash extend) into the run's cache settings and the key
removed from the configured inputs before fn is invoked; every fn invocation
of such a run sees inputs without the _cache key, with all other input
entries unchanged. -/
theorem C9_amended_truthy_cache_key_stripped (m : MachineState) (now : Int)
    (hres : Except Value String) (sb : StoreBehavior) (fnAct : Option (String × Value))
    (ht : truthy (getField m.configuredInputs "_cache") = true) :
    (mergeCacheInput m).cacheSettings =
      jsExtend m.cacheSettings (getField m.configuredInputs "_cache") ∧
    (∀ i x, Ev.fnCall i x ∈ (exec m now hres sb fnAct).1 →
      i = deleteField m.configuredInputs "_cache" ∧
      getField i "_cache" = Value.undefined ∧
      (∀ k, k ≠ "_cache" → getField i k = getField m.configuredInputs k)) := by
  have hmerge : mergeCacheInput m =
      { m with
        cacheSettings := jsExtend m.cacheSettings (getField m.configuredInputs "_cache")
        configuredInputs := deleteField m.configuredInputs "_cache" } := by
    unfold mergeCacheInput
    rw [if_pos ht]
  constructor
  · rw [hmerge]
  · intro i x hev
    obtain ⟨hi, -⟩ := fnCall_mem_exec m now hres sb fnAct i x hev
    have hi2 : i = deleteField m.configuredInputs "_cache" := by
      rw [hi, hmerge]
    refine ⟨hi2, ?_, ?_⟩
    · rw [hi2]
      exact getField_deleteField_self _ _
    · intro k hk
      rw [hi2]
      exact getField_deleteField_ne _ _ _ hk

/-- Witness for the amended C9: a concrete run whose caller passes a truthy
_cache object; the settings are extended and every fn invocation sees the
stripped inputs. -/
theorem C9_amended_truthy_cache_key_stripped_witness :
    (mergeCacheInput mTruthyCache).cacheSettings =
      jsExtend mTruthyCache.cacheSettings
        (getField mTruthyCache.configuredInputs "_cache") ∧
    (∀ i x, Ev.fnCall i x ∈ (exec mTruthyCache 0 (.ok "h") (conformingStore []) none).1 →
      i = deleteField mTruthyCache.configuredInputs "_cache" ∧
      getField i "_cache" = Value.undefined ∧
      (∀ k, k ≠ "_cache" → getField i k = getField mTruthyCache.configuredInputs k)) :=
  C9_amended_truthy_cache_key_stripped mTruthyCache 0 (.ok "h") (conformingStore [])
    none (by decide)

/-- C10: a value d that reaches the store from a custom (non-success)
cacheable exit is, on a later run that finds it fresh, replayed through the
success continuation: the first run creates the entry and forwards d through
the custom exit, while the second run delivers d by calling the success exit
over the full configured exit set, never invoking fn — regardless of the
cacheable exit's name. -/
theorem C10_custom_exit_replayed_through_success (m : MachineState) (now : Int)
    (store store2 : List CacheEntry) (h : String) (d : Value) (c : NormCache)
    (exitName : String) (t : Int) (fnAct2 : Option (String × Value))
    (hc : (normalizeCache (mergeCacheInput m).cacheSettings now).1 = some c)
    (hh : h ≠ "")
    (hexit : c.exit = .vstr exitName)
    (_hne : exitName ≠ "success")
    (hmem : exitName ∈ (mergeCacheInput m).configuredExits)
    (hmiss : runFind store (buildFindCriteria (.vstr h) c.expirationDate) = [])
    (hfind2 : runFind store2 (buildFindCriteria (.vstr h) c.expirationDate) =
      [{ hash := .vstr h, data := d, createdAt := t }])
    (hd : d ≠ Value.undefined) :
    Ev.createOp (.vstr h) d ∈
      (exec m now (.ok h) (conformingStore store) (some (exitName, d))).1 ∧
    Ev.exitCalled exitName d ∈
      (exec m now (.ok h) (conformingStore store) (some (exitName, d))).1 ∧
    (exec m now (.ok h) (conformingStore store2) fnAct2).1 =
      [Ev.findOp (buildFindCriteria (.vstr h) c.expirationDate),
       Ev.exitCalled "success" d] ∧
    (∀ i x, Ev.fnCall i x ∉ (exec m now (.ok h) (conformingStore store2) fnAct2).1) := by
  have hfr1 : (conformingStore store).findR (buildFindCriteria (.vstr h) c.expirationDate) =
      .ok [] := by
    simp [conformingStore, hmiss]
  have htr1 : (exec m now (.ok h) (conformingStore store) (some (exitName, d))).1 =
      Ev.findOp (buildFindCriteria (.vstr h) c.expirationDate) ::
        fallbackEvents (some c) (some h) none
          { mergeCacheInput m with
            cacheSettings := (normalizeCache (mergeCacheInput m).cacheSettings now).2 }
          (conformingStore store) (some (exitName, d)) := by
    rw [exec_events_eq, hc,
      execEvents_missEmpty c _ h (conformingStore store) (some (exitName, d)) hfr1]
  have hti := traverseExit_intercept c h
    ({ mergeCacheInput m with
      cacheSettings := (normalizeCache (mergeCacheInput m).cacheSettings now).2 } :
        MachineState).configuredExits (conformingStore store) exitName d hmem hh hexit
  have hfr2 : (conformingStore store2).findR (buildFindCriteria (.vstr h) c.expirationDate) =
      .ok [{ hash := .vstr h, data := d, createdAt := t }] := by
    simp [conformingStore, hfind2]
  have htr2 : (exec m now (.ok h) (conformingStore store2) fnAct2).1 =
      [Ev.findOp (buildFindCriteria (.vstr h) c.expirationDate),
       Ev.exitCalled "success" d] := by
    rw [exec_events_eq, hc,
      execEvents_hit c _ h (conformingStore store2) fnAct2
        { hash := .vstr h, data := d, createdAt := t } [] hfr2 hd]
  refine ⟨?_, ?_, htr2, ?_⟩
  · rw [htr1]
    refine List.mem_cons_of_mem _ (mem_fallbackEvents_of_mem_traverse _ _ _ _ _
      exitName d _ ?_)
    rw [hti]
    simp
  · rw [htr1]
    refine List.mem_cons_of_mem _ (mem_fallbackEvents_of_mem_traverse _ _ _ _ _
      exitName d _ ?_)
    rw [hti]
    simp
  · intro i x hmemf
    rw [htr2] at hmemf
    simp at hmemf

/-- Witness for C10: the foo exit is cacheable; a value cached through foo
on a miss run is delivered through success on the following hit run. -/
theorem C10_custom_exit_replayed_through_success_witness :
    Ev.createOp (.vstr "h1") (.vstr "out") ∈
      (exec mFoo 10800100 (.ok "h1") (conformingStore [])
        (some ("foo", .vstr "out"))).1 ∧
    Ev.exitCalled "foo" (.vstr "out") ∈
      (exec mFoo 10800100 (.ok "h1") (conformingStore [])
        (some ("foo", .vstr "out"))).1 ∧
    (exec mFoo 10800100 (.ok "h1")
      (conformingStore [{ hash := .vstr "h1", data := .vstr "out", createdAt := 150 }])
      none).1 =
      [Ev.findOp (buildFindCriteria (.vstr "h1") normFoo.expirationDate),
       Ev.exitCalled "success" (.vstr "out")] ∧
    (∀ i x, Ev.fnCall i x ∉
      (exec mFoo 10800100 (.ok "h1")
        (conformingStore [{ hash := .vstr "h1", data := .vstr "out", createdAt := 150 }])
        none).1) :=
  C10_custom_exit_replayed_through_success mFoo 10800100 []
    [{ hash := .vstr "h1", data := .vstr "out", createdAt := 150 }] "h1" (.vstr "out")
    normFoo "foo" 150 none (by decide) (by decide) (by decide) (by decide) (by decide)
    (by decide) (by decide) (by decide)

/-- C4: the Execution Core of lib/Machine.prototype.exec.js (line 255)
passes the machine's _configuredContexts property — which the constructor in
lib/Machine.js never initialises, so it reads as undefined — as the third
argument of fn, not the resolved dependencies; the plain exec of
lib/Machine.js (line 202) does pass the dependencies, which together with
the specification shows the intent.  On a machine with one resolved
dependency, the caching exec invokes fn with an undefined third argument
while the plain exec passes the dependency map. -/
theorem C4_execCore_third_argument_bug :
    mDeps.dependencies = Value.vobj (.cons "dep" (.vfun 5) .nil) ∧
    mDeps.configuredContexts = Value.undefined ∧
    (exec mDeps 10800100 (.ok "h1") (conformingStore []) none).1 =
      [Ev.findOp (buildFindCriteria (.vstr "h1") (some 100)),
       Ev.countOp { hash := .vstr "h1", createdAtLe := some 100 },
       Ev.fnCall (.vobj (.cons "a" (.vnum 1) .nil)) Value.undefined] ∧
    Value.undefined ≠ mDeps.dependencies ∧
    execSimple mDeps none =
      [Ev.fnCall (.vobj (.cons "a" (.vnum 1) .nil)) mDeps.dependencies] := by
  decide

end Machine
